import Mathlib

/-!
Shallow embedding of the WHERE-clause engine of csvq
(src/where-parser.c, src/str.h, src/types.h, find_column_by_name from
src/csvq.c).  C strings become `List Char`; NULL-able strings become
`Option (List Char)`; fallible C functions returning NULL become
`Option`; `size_t` becomes `Nat` with the sentinel `(size_t)-1`
modelled as `2^64 - 1`.
-/

set_option maxRecDepth 10000

namespace Csvq

/-- C `isspace` in the default locale: space, \t, \n, \v, \f, \r. -/
def isSpaceC (c : Char) : Bool :=
  c = ' ' || c = '\t' || c = '\n' || c = '\x0b' || c = '\x0c' || c = '\r'

/-- C `isalpha` restricted to the default locale (ASCII letters). -/
def isAlphaC (c : Char) : Bool :=
  ('a' ≤ c && c ≤ 'z') || ('A' ≤ c && c ≤ 'Z')

/-- C `isalnum` in the default locale (ASCII letters and digits). -/
def isAlnumC (c : Char) : Bool :=
  isAlphaC c || ('0' ≤ c && c ≤ '9')

/-- C `tolower` in the default locale: maps ASCII upper case to lower case. -/
def toLowerC (c : Char) : Char :=
  if 'A' ≤ c && c ≤ 'Z' then Char.ofNat (c.toNat + 32) else c

/-- Model of `trim_string` from src/str.h: drop leading whitespace, then cut the
string just after its last non-whitespace character. -/
def trim_string (s : List Char) : List Char :=
  let t := s.dropWhile isSpaceC
  (t.reverse.dropWhile isSpaceC).reverse

/-- Model of `strncasecmp(hay, needle, strlen(needle)) == 0`: does `needle` match a
prefix of `hay` case-insensitively?  The needle is the first argument. -/
def startsWithCI : List Char → List Char → Bool
  | [], _ => true
  | _ :: _, [] => false
  | n :: ns, h :: hs => (toLowerC n == toLowerC h) && startsWithCI ns hs

/-- Model of `strcasestr(hay, needle)`: index of the first case-insensitive
occurrence of `needle` in `hay` (the C function returns a pointer into
`hay`; we return the offset), `none` when there is no occurrence.
An empty needle matches at offset 0, as in glibc. -/
def strcasestr (hay needle : List Char) : Option Nat :=
  match hay with
  | [] => if startsWithCI needle [] then some 0 else none
  | _ :: rest =>
      if startsWithCI needle hay then some 0
      else (strcasestr rest needle).map (fun k => k + 1)

/-- Model of `strcasecmp(a, b) == 0`: full-string case-insensitive equality. -/
def strcaseeq (a b : List Char) : Bool :=
  a.map toLowerC == b.map toLowerC

/-- Model of `CompareOp` from src/types.h. -/
inductive CompareOp
  | OP_CONTAINS
  | OP_EQUALS
  | OP_NOT_EQUALS
  | OP_GREATER
  | OP_LESS
  | OP_GREATER_EQ
  | OP_LESS_EQ
deriving DecidableEq, Repr

/-- Model of `LogicOp` from src/types.h. -/
inductive LogicOp
  | LOGIC_AND
  | LOGIC_OR
deriving DecidableEq, Repr

/-- Model of `(size_t)-1`, the unresolved-column sentinel stored in `column_idx`. -/
def USIZE_MAX : Nat := 2 ^ 64 - 1

/-- Model of `WhereClause` from src/types.h. -/
structure WhereClause where
  column_name : List Char
  column_idx : Nat
  op : CompareOp
  value : List Char
  is_numeric : Bool
deriving DecidableEq, Repr

/-- The operator table of `parse_single_condition`
(src/where-parser.c lines 30-31), in the order the code scans it. -/
def operators_table : List (List Char × CompareOp) :=
  [(">=".data, .OP_GREATER_EQ), ("<=".data, .OP_LESS_EQ), ("!=".data, .OP_NOT_EQUALS),
   ("contains".data, .OP_CONTAINS), (">".data, .OP_GREATER), ("<".data, .OP_LESS),
   ("=".data, .OP_EQUALS)]

/-- The operator-search loop of `parse_single_condition`: try each table
entry in order with `strcasestr`, stop at the first entry that occurs
anywhere in `s`.  Returns the operator, the offset of its first
occurrence, and its length. -/
def find_op_in (s : List Char) : List (List Char × CompareOp) → Option (CompareOp × Nat × Nat)
  | [] => none
  | (opstr, op) :: rest =>
      match strcasestr s opstr with
      | some p => some (op, p, opstr.length)
      | none => find_op_in s rest

/-- Operator search over the full table (src/where-parser.c lines 37-45). -/
def find_operator (s : List Char) : Option (CompareOp × Nat × Nat) :=
  find_op_in s operators_table

/-- Model of `parse_single_condition` from src/where-parser.c: trim the input,
find the operator, split at its first occurrence, trim both sides.
An empty column name is an error; an empty value is accepted.
`none` models the C function returning NULL (allocation failures are
not modelled). -/
def parse_single_condition (cond_str : List Char) : Option WhereClause :=
  let s := trim_string cond_str
  if s = [] then none
  else
    match find_operator s with
    | none => none
    | some (op, pos, oplen) =>
        let col_name := trim_string (s.take pos)
        let value := trim_string (s.drop (pos + oplen))
        if col_name = [] then none
        else some { column_name := col_name, column_idx := USIZE_MAX, op := op,
                    value := value,
                    is_numeric := (op == .OP_GREATER || op == .OP_LESS ||
                                   op == .OP_GREATER_EQ || op == .OP_LESS_EQ) }

/-- Model of `ASTNode` from src/types.h.  A node is either a condition leaf or a
logic node with two children (the C struct's unused fields are dropped). -/
inductive ASTNode
  | cond (clause : WhereClause)
  | logic (op : LogicOp) (left right : ASTNode)
deriving DecidableEq, Repr

/-- Model of `check_token` from src/where-parser.c: skip whitespace, match `token`
case-insensitively; for an alphabetic token the next character must not
be alphanumeric or an underscore (whole-word check).  On success return
the stream advanced past the token; on failure the C code leaves the
stream unchanged, modelled by `none`. -/
def check_token (s token : List Char) : Option (List Char) :=
  let s1 := s.dropWhile isSpaceC
  if startsWithCI token s1 then
    if (match token with
        | c :: _ => isAlphaC c
        | [] => false) then
      match s1.drop token.length with
      | [] => some (s1.drop token.length)
      | next :: _ =>
          if isAlnumC next || next = '_' then none
          else some (s1.drop token.length)
    else some (s1.drop token.length)
  else none

/-- The condition scanner of `parse_factor` (src/where-parser.c lines
172-184): number of characters before the first `(`, `)`, `" AND "` or
`" OR "` boundary (case-insensitive), or the whole rest of the stream. -/
def condLen : List Char → Nat
  | [] => 0
  | c :: rest =>
      if c = '(' || c = ')' then 0
      else if startsWithCI " AND ".data (c :: rest) || startsWithCI " OR ".data (c :: rest) then 0
      else condLen rest + 1

mutual

/-- Model of `parse_factor` from src/where-parser.c: a parenthesized expression or
a single condition.  `fuel` bounds the recursion depth (the C code
recurses on the shrinking stream); every concrete theorem runs it with
enough fuel.  Returns the node and the remaining stream. -/
def parse_factor : Nat → List Char → Option (ASTNode × List Char)
  | 0, _ => none
  | fuel + 1, s =>
      let s1 := s.dropWhile isSpaceC
      match check_token s1 "(".data with
      | some s2 =>
          match parse_expression fuel s2 with
          | none => none
          | some (node, s3) =>
              match check_token s3 ")".data with
              | none => none
              | some s4 => some (node, s4)
      | none =>
          let len := condLen s1
          if len = 0 then none
          else
            match parse_single_condition (s1.take len) with
            | none => none
            | some wc => some (.cond wc, s1.drop len)

/-- The `{ AND Factor }` loop of `parse_term`. -/
def parse_term_ands : Nat → ASTNode → List Char → Option (ASTNode × List Char)
  | 0, _, _ => none
  | fuel + 1, left, s =>
      match check_token s "AND".data with
      | none => some (left, s)
      | some s2 =>
          match parse_factor fuel s2 with
          | none => none
          | some (right, s3) => parse_term_ands fuel (.logic .LOGIC_AND left right) s3

/-- Model of `parse_term` from src/where-parser.c: `Factor { AND Factor }`. -/
def parse_term : Nat → List Char → Option (ASTNode × List Char)
  | 0, _ => none
  | fuel + 1, s =>
      match parse_factor fuel s with
      | none => none
      | some (left, s2) => parse_term_ands fuel left s2

/-- The `{ OR Term }` loop of `parse_expression`. -/
def parse_expr_ors : Nat → ASTNode → List Char → Option (ASTNode × List Char)
  | 0, _, _ => none
  | fuel + 1, left, s =>
      match check_token s "OR".data with
      | none => some (left, s)
      | some s2 =>
          match parse_term fuel s2 with
          | none => none
          | some (right, s3) => parse_expr_ors fuel (.logic .LOGIC_OR left right) s3

/-- Model of `parse_expression` from src/where-parser.c: `Term { OR Term }`. -/
def parse_expression : Nat → List Char → Option (ASTNode × List Char)
  | 0, _ => none
  | fuel + 1, s =>
      match parse_term fuel s with
      | none => none
      | some (left, s2) => parse_expr_ors fuel left s2

end

/-- Model of `parse_where_clause` from src/where-parser.c.  The C function returns
a bool and stores the root in `filter->root`; on every failure path the
root it leaves behind is NULL, so we model the pair as `Option ASTNode`:
`some root` iff the C function returns true.  The whole input must be
consumed up to trailing whitespace.  Fuel `4 * (length + 2)` dominates
the recursion depth of the C parser on the same input. -/
def parse_where_clause (where_str : List Char) : Option ASTNode :=
  if where_str = [] then none
  else
    match parse_expression (4 * (where_str.length + 2)) where_str with
    | none => none
    | some (root, rest) =>
        if rest.dropWhile isSpaceC = [] then some root else none

/-- A CSV `Row`: an ordered sequence of individually NULL-able text
fields.  `row->count` is the list length. -/
def Row := List (Option (List Char))

instance : DecidableEq Row := by unfold Row; infer_instance

/-- Model of `find_column_by_name` from src/csvq.c: scan header fields in order,
skip NULL cells, compare the whitespace-trimmed cell with `name`
case-insensitively (C compares lengths of the trimmed segment and then
`strncasecmp`, which equals full case-insensitive equality of the
trimmed cell); first match wins.  C returns `ssize_t` with -1 for
not-found, modelled as `Option Nat`. -/
def find_column_by_name (header : Row) (name : List Char) : Option Nat :=
  go 0 header
where
  go (i : Nat) : List (Option (List Char)) → Option Nat
    | [] => none
    | none :: rest => go (i + 1) rest
    | some cell :: rest =>
        if strcaseeq (trim_string cell) name then some i else go (i + 1) rest

/-- Model of `resolve_ast_indices` from src/where-parser.c, as a pure tree
transformer: for every condition leaf whose `column_idx` is still the
sentinel, look the column name up in the header; on success store the
index, on failure leave the sentinel (a warning is printed, not
modelled). -/
def resolve_ast (header : Row) : ASTNode → ASTNode
  | .logic op l r => .logic op (resolve_ast header l) (resolve_ast header r)
  | .cond wc =>
      if wc.column_idx = USIZE_MAX then
        match find_column_by_name header wc.column_name with
        | some idx => .cond { wc with column_idx := idx }
        | none => .cond wc
      else .cond wc

/-- The value produced by C `strtod`: a finite number (modelled as an
exact rational, kept as an unnormalized numerator/denominator pair so
that the kernel can compute with it; the denominator is always a
positive power of the radix; the claims here never depend on double
rounding), a signed infinity, or a NaN. -/
inductive DVal
  | fin (num : ℤ) (den : ℕ)
  | pinf
  | ninf
  | nan
deriving DecidableEq, Repr

/-- Strict less-than on `strtod` values, with IEEE NaN semantics: any
comparison involving NaN is false.  Finite values compare as the exact
rationals `num/den` (cross-multiplication; denominators are positive). -/
def dLT : DVal → DVal → Bool
  | .nan, _ => false
  | _, .nan => false
  | .fin n1 d1, .fin n2 d2 => n1 * (d2 : ℤ) < n2 * (d1 : ℤ)
  | .fin _ _, .pinf => true
  | .fin _ _, .ninf => false
  | .pinf, _ => false
  | .ninf, .ninf => false
  | .ninf, _ => true

/-- Less-or-equal on `strtod` values, with IEEE NaN semantics. -/
def dLE : DVal → DVal → Bool
  | .nan, _ => false
  | _, .nan => false
  | .fin n1 d1, .fin n2 d2 => n1 * (d2 : ℤ) ≤ n2 * (d1 : ℤ)
  | .fin _ _, .pinf => true
  | .fin _ _, .ninf => false
  | .pinf, .pinf => true
  | .pinf, _ => false
  | .ninf, _ => true

/-- Apply a signed radix exponent to a signed mantissa over a power
denominator, staying in integers: `(s / baseDen) * radix^e`. -/
def applyExp (s : ℤ) (baseDen : ℕ) (radix : ℕ) (e : ℤ) : ℤ × ℕ :=
  if 0 ≤ e then (s * (radix : ℤ) ^ e.toNat, baseDen)
  else (s, baseDen * radix ^ (-e).toNat)

/-- Accumulate decimal digits: value so far, count of digits consumed. -/
def takeDigits : List Char → Nat → Nat → (Nat × Nat × List Char)
  | c :: rest, acc, cnt =>
      if '0' ≤ c && c ≤ '9' then takeDigits rest (acc * 10 + (c.toNat - 48)) (cnt + 1)
      else (acc, cnt, c :: rest)
  | [], acc, cnt => (acc, cnt, [])

/-- Hexadecimal digit value, `none` for a non-hex-digit. -/
def hexVal (c : Char) : Option Nat :=
  if '0' ≤ c && c ≤ '9' then some (c.toNat - 48)
  else if 'a' ≤ c && c ≤ 'f' then some (c.toNat - 87)
  else if 'A' ≤ c && c ≤ 'F' then some (c.toNat - 55)
  else none

/-- Accumulate hexadecimal digits. -/
def takeHexDigits : List Char → Nat → Nat → (Nat × Nat × List Char)
  | c :: rest, acc, cnt =>
      match hexVal c with
      | some v => takeHexDigits rest (acc * 16 + v) (cnt + 1)
      | none => (acc, cnt, c :: rest)
  | [], acc, cnt => (acc, cnt, [])

/-- Parse an optional exponent part `[eE][+-]?digits` (or `[pP]` for hex).
If the marker is present but no digit follows, nothing is consumed (as
`strtod` backs off).  Returns the signed exponent and the rest. -/
def parseExponent (marks : List Char) (s : List Char) : (ℤ × List Char) :=
  match s with
  | c :: rest =>
      if marks.contains c then
        let (neg, r2) :=
          match rest with
          | '+' :: r => (false, r)
          | '-' :: r => (true, r)
          | r => (false, r)
        let (e, cnt, r3) := takeDigits r2 0 0
        if cnt = 0 then (0, s)
        else ((if neg then -(e : ℤ) else (e : ℤ)), r3)
      else (0, s)
  | [] => (0, s)

/-- The n-char-sequence optionally following `nan`: `(chars)` where the
chars are alphanumeric or underscore; consumed only when the closing
parenthesis is present. -/
def nanSuffix (s : List Char) : List Char :=
  match s with
  | '(' :: rest =>
      let body := rest.dropWhile (fun c => isAlnumC c || c == '_')
      match body with
      | ')' :: r => r
      | _ => s
  | _ => s

/-- C `strtod` on the embedded strings: skip leading whitespace, optional
sign, then `inf`/`infinity`, `nan`, a hexadecimal literal
(`0x` hex-digits with optional hex fraction and `p` binary exponent), or
a decimal literal (digits, optional fraction, optional `e` exponent).
Returns the value and the unconsumed rest (the C `endptr`); when no
conversion is performed the rest is the whole original input and the
value is 0, exactly as `strtod` sets `endptr = nptr`.  Finite values are
exact rationals (double rounding is not modelled; no claim here depends
on it). -/
def strtodQ (s0 : List Char) : (DVal × List Char) :=
  let s1 := s0.dropWhile isSpaceC
  let (neg, s2) :=
    match s1 with
    | '+' :: r => (false, r)
    | '-' :: r => (true, r)
    | r => (false, r)
  if startsWithCI "infinity".data s2 then
    ((if neg then .ninf else .pinf), s2.drop 8)
  else if startsWithCI "inf".data s2 then
    ((if neg then .ninf else .pinf), s2.drop 3)
  else if startsWithCI "nan".data s2 then
    (.nan, nanSuffix (s2.drop 3))
  else
    match s2 with
    | '0' :: x :: rest =>
        if x == 'x' || x == 'X' then
          let (ip, icnt, r1) := takeHexDigits rest 0 0
          let (fp, fcnt, r2) :=
            match r1 with
            | '.' :: rf => takeHexDigits rf 0 0
            | _ => (0, 0, r1)
          if icnt + fcnt = 0 then
            -- no hex digit after "0x": strtod consumes just the "0"
            (.fin 0 1, x :: rest)
          else
            let r3 :=
              match r1 with
              | '.' :: _ => r2
              | _ => r1
            let (e, r4) := parseExponent ['p', 'P'] r3
            let s : ℤ := if neg then -((ip * 16 ^ fcnt + fp : ℕ) : ℤ) else ((ip * 16 ^ fcnt + fp : ℕ) : ℤ)
            let (n, d) := applyExp s (16 ^ fcnt) 2 e
            (.fin n d, r4)
        else decimalFrom neg s2
    | _ => decimalFrom neg s2
where
  /-- The decimal branch; on no conversion `strtod` leaves `endptr` at
  the original input `s0`. -/
  decimalFrom (neg : Bool) (t : List Char) : (DVal × List Char) :=
    let (ip, icnt, r1) := takeDigits t 0 0
    let (fp, fcnt, r2) :=
      match r1 with
      | '.' :: rf => takeDigits rf 0 0
      | _ => (0, 0, r1)
    if icnt + fcnt = 0 then (.fin 0 1, s0)
    else
      let r3 :=
        match r1 with
        | '.' :: _ => r2
        | _ => r1
      let (e, r4) := parseExponent ['e', 'E'] r3
      let s : ℤ := if neg then -((ip * 10 ^ fcnt + fp : ℕ) : ℤ) else ((ip * 10 ^ fcnt + fp : ℕ) : ℤ)
      let (n, d) := applyExp s (10 ^ fcnt) 10 e
      (.fin n d, r4)

/-- Model of `evaluate_where_clause` from src/where-parser.c: a NULL row (or NULL
clause, not modelled since the AST never stores one) evaluates to true;
an out-of-bounds `column_idx` evaluates to false; a NULL field is
treated as the empty string; then the operator decides: `contains` is a
case-insensitive substring test, equality is case-insensitive
full-string comparison (no trimming), and the four relational operators
compare the `strtod` values provided both strings were consumed
completely (`*endptr == '\0'`), otherwise false. -/
def evaluate_where_clause (row : Option Row) (clause : WhereClause) : Bool :=
  match row with
  | none => true
  | some r =>
      if r.length ≤ clause.column_idx then false
      else
        let field := (r.getD clause.column_idx none).getD []
        match clause.op with
        | .OP_CONTAINS => (strcasestr field clause.value).isSome
        | .OP_EQUALS => strcaseeq field clause.value
        | .OP_NOT_EQUALS => !strcaseeq field clause.value
        | relop =>
            if (strtodQ field).2 ≠ [] || (strtodQ clause.value).2 ≠ [] then false
            else
              match relop with
              | .OP_GREATER => dLT (strtodQ clause.value).1 (strtodQ field).1
              | .OP_LESS => dLT (strtodQ field).1 (strtodQ clause.value).1
              | .OP_GREATER_EQ => dLE (strtodQ clause.value).1 (strtodQ field).1
              | .OP_LESS_EQ => dLE (strtodQ field).1 (strtodQ clause.value).1
              | _ => false

/-- Model of `eval_ast` from src/where-parser.c: NULL node is true; a logic node
evaluates its left child and short-circuits (AND: false when left is
false; OR: true when left is true); a condition leaf delegates to
`evaluate_where_clause`.  The NULL-node case only arises at the root,
which `evaluate_where_filter` already guards, so the tree here is total. -/
def eval_ast (row : Option Row) : ASTNode → Bool
  | .cond clause => evaluate_where_clause row clause
  | .logic op l r =>
      let l_res := eval_ast row l
      match op with
      | .LOGIC_AND => if l_res then eval_ast row r else false
      | .LOGIC_OR => if l_res then true else eval_ast row r

/-- Model of `evaluate_where_filter` from src/where-parser.c: a NULL filter or a
filter with no root passes every row. -/
def evaluate_where_filter (row : Option Row) (filter : Option ASTNode) : Bool :=
  match filter with
  | none => true
  | some root => eval_ast row root

/-- A row literal helper: every field present. -/
def mkRow (fields : List String) : Row := fields.map (fun f => some f.data)

/-! ### Definitions written from the spec's words, for comparison with
the definitions above that embed the source.  They are used only to
exhibit divergences between spec and code. -/

/-- Spec-side operator search, following the spec's words: the leftmost
occurrence of any operator of `cls` in `s` (earlier class member wins a
positional tie). -/
def leftmost_in_class (s : List Char) (cls : List (List Char × CompareOp)) :
    Option (CompareOp × Nat × Nat) :=
  cls.foldl
    (fun best entry =>
      match strcasestr s entry.1 with
      | none => best
      | some p =>
          match best with
          | none => some (entry.2, p, entry.1.length)
          | some (_, bp, _) => if p < bp then some (entry.2, p, entry.1.length) else best)
    none

/-- Spec-side operator search, following the spec's words: `contains`
first, then the two-character operators, then the one-character
operators; within the highest-priority class that occurs, the leftmost
occurrence wins. -/
def spec_find_operator (s : List Char) : Option (CompareOp × Nat × Nat) :=
  match leftmost_in_class s [("contains".data, .OP_CONTAINS)] with
  | some r => some r
  | none =>
      match leftmost_in_class s
          [(">=".data, .OP_GREATER_EQ), ("<=".data, .OP_LESS_EQ), ("!=".data, .OP_NOT_EQUALS)] with
      | some r => some r
      | none =>
          leftmost_in_class s
            [(">".data, .OP_GREATER), ("<".data, .OP_LESS), ("=".data, .OP_EQUALS)]

/-- Spec-side single-condition parser: like `parse_single_condition` but
with the spec's operator priority (`spec_find_operator`). -/
def spec_parse_single_condition (cond_str : List Char) : Option WhereClause :=
  let s := trim_string cond_str
  if s = [] then none
  else
    match spec_find_operator s with
    | none => none
    | some (op, pos, oplen) =>
        let col_name := trim_string (s.take pos)
        let value := trim_string (s.drop (pos + oplen))
        if col_name = [] then none
        else some { column_name := col_name, column_idx := USIZE_MAX, op := op,
                    value := value,
                    is_numeric := (op == .OP_GREATER || op == .OP_LESS ||
                                   op == .OP_GREATER_EQ || op == .OP_LESS_EQ) }

/-- Spec-side relational evaluation, following the spec's words: a side
fails only if it does not parse as a complete number *ignoring trailing
whitespace*; otherwise compare the parsed values. -/
def spec_rel_eval (field value : List Char) (op : CompareOp) : Bool :=
  if (strtodQ field).2.dropWhile isSpaceC ≠ [] ||
     (strtodQ value).2.dropWhile isSpaceC ≠ [] then false
  else
    match op with
    | .OP_GREATER => dLT (strtodQ value).1 (strtodQ field).1
    | .OP_LESS => dLT (strtodQ field).1 (strtodQ value).1
    | .OP_GREATER_EQ => dLE (strtodQ value).1 (strtodQ field).1
    | .OP_LESS_EQ => dLE (strtodQ field).1 (strtodQ value).1
    | _ => false

/-- Spec-side equality evaluation, following the spec's words: trim
surrounding whitespace from the field value, then compare
case-insensitively with the (already trimmed) operand. -/
def spec_equals_eval (field value : List Char) : Bool :=
  strcaseeq (trim_string field) value

/-! ### Helper lemmas -/

/-- Model of `strcasestr` returns the index of a genuine occurrence, and the
leftmost one: the needle matches at the returned index and at no
earlier index. -/
theorem strcasestr_spec (hay needle : List Char) (p : Nat)
    (h : strcasestr hay needle = some p) :
    startsWithCI needle (hay.drop p) = true ∧
    ∀ q, q < p → startsWithCI needle (hay.drop q) = false := by
  induction hay generalizing p with
  | nil =>
    unfold strcasestr at h
    by_cases hs : startsWithCI needle [] = true
    · simp only [hs, if_true] at h
      obtain rfl : (0 : Nat) = p := Option.some.inj h
      exact ⟨hs, fun q hq => absurd hq (Nat.not_lt_zero q)⟩
    · simp only [Bool.not_eq_true] at hs
      simp [hs] at h
  | cons c rest ih =>
    unfold strcasestr at h
    by_cases hs : startsWithCI needle (c :: rest) = true
    · simp only [hs, if_true] at h
      obtain rfl : (0 : Nat) = p := Option.some.inj h
      exact ⟨hs, fun q hq => absurd hq (Nat.not_lt_zero q)⟩
    · simp only [Bool.not_eq_true] at hs
      simp only [hs, Bool.false_eq_true, if_false, Option.map_eq_some'] at h
      obtain ⟨k, hk, rfl⟩ := h
      obtain ⟨h1, h2⟩ := ih k hk
      refine ⟨h1, fun q hq => ?_⟩
      cases q with
      | zero => simpa using hs
      | succ q' => exact h2 q' (Nat.lt_of_succ_lt_succ hq)

/-- The operator loop of `parse_single_condition` returns the first
table entry that occurs anywhere in `s`: the entry's needle occurs at
the returned position, and no earlier table entry occurs at all. -/
theorem find_op_in_spec (s : List Char) (tbl : List (List Char × CompareOp))
    (op : CompareOp) (pos len : Nat)
    (h : find_op_in s tbl = some (op, pos, len)) :
    ∃ i opstr, tbl.get? i = some (opstr, op) ∧ len = opstr.length ∧
      strcasestr s opstr = some pos ∧
      ∀ j e, j < i → tbl.get? j = some e → strcasestr s e.1 = none := by
  induction tbl generalizing op pos len with
  | nil => simp [find_op_in] at h
  | cons entry rest ih =>
    obtain ⟨opstr0, op0⟩ := entry
    unfold find_op_in at h
    cases hs : strcasestr s opstr0 with
    | some p0 =>
        rw [hs] at h
        obtain ⟨rfl, rfl, rfl⟩ : op0 = op ∧ p0 = pos ∧ opstr0.length = len := by
          have := Option.some.inj h
          exact ⟨congrArg Prod.fst this, congrArg (fun x => x.2.1) this,
                 congrArg (fun x => x.2.2) this⟩
        refine ⟨0, opstr0, rfl, rfl, hs, fun j e hj _ => absurd hj (Nat.not_lt_zero j)⟩
    | none =>
        rw [hs] at h
        obtain ⟨i, opstr, h1, h2, h3, h4⟩ := ih op pos len h
        refine ⟨i + 1, opstr, by simpa using h1, h2, h3, fun j e hj hje => ?_⟩
        cases j with
        | zero =>
            obtain rfl : (opstr0, op0) = e := by simpa using hje
            exact hs
        | succ j' => exact h4 j' e (Nat.lt_of_succ_lt_succ hj) (by simpa using hje)

/-- Successful `parse_single_condition` output, characterized: the
operator search ran on the trimmed input and found the stored operator,
and the two sides are the trimmed pieces around its occurrence.  The
column name is never empty, the column index starts at the sentinel. -/
theorem parse_single_condition_split (s : List Char) (wc : WhereClause)
    (h : parse_single_condition s = some wc) :
    ∃ pos len, find_operator (trim_string s) = some (wc.op, pos, len) ∧
      wc.column_name = trim_string ((trim_string s).take pos) ∧
      wc.value = trim_string ((trim_string s).drop (pos + len)) ∧
      wc.column_idx = USIZE_MAX ∧
      wc.column_name ≠ [] := by
  unfold parse_single_condition at h
  by_cases he : trim_string s = []
  · simp [he] at h
  · simp only [he, if_false] at h
    cases hf : find_operator (trim_string s) with
    | none => rw [hf] at h; simp at h
    | some r =>
        obtain ⟨op, pos, len⟩ := r
        rw [hf] at h
        by_cases hc : trim_string ((trim_string s).take pos) = []
        · simp [hc] at h
        · simp only [hc, if_false] at h
          obtain rfl := Option.some.inj h
          exact ⟨pos, len, rfl, rfl, rfl, rfl, hc⟩

/-! ### Claims -/

/-- C3: AND binds tighter than OR and parentheses override that
precedence.  With header a,b,c: the tree parsed from
"a=1 OR b=2 AND c=3" evaluates like the tree parsed from
"a=1 OR (b=2 AND c=3)" on every row (the two resolved trees are equal),
while the tree parsed from "(a=1 OR b=2) AND c=3" differs on the row
a=1, b=9, c=9. -/
theorem C3_and_binds_tighter_than_or :
    (∀ row,
      evaluate_where_filter row
        ((parse_where_clause "a=1 OR b=2 AND c=3".data).map
          (resolve_ast (mkRow ["a", "b", "c"]))) =
      evaluate_where_filter row
        ((parse_where_clause "a=1 OR (b=2 AND c=3)".data).map
          (resolve_ast (mkRow ["a", "b", "c"])))) ∧
    evaluate_where_filter (some (mkRow ["1", "9", "9"]))
        ((parse_where_clause "(a=1 OR b=2) AND c=3".data).map
          (resolve_ast (mkRow ["a", "b", "c"]))) ≠
      evaluate_where_filter (some (mkRow ["1", "9", "9"]))
        ((parse_where_clause "a=1 OR b=2 AND c=3".data).map
          (resolve_ast (mkRow ["a", "b", "c"]))) := by
  constructor
  · have he :
        (parse_where_clause "a=1 OR b=2 AND c=3".data).map
          (resolve_ast (mkRow ["a", "b", "c"])) =
        (parse_where_clause "a=1 OR (b=2 AND c=3)".data).map
          (resolve_ast (mkRow ["a", "b", "c"])) := by decide
    intro row
    rw [he]
  · decide

/-- C4: an empty filter (no root) passes every row, and logic nodes
short-circuit on the left child: an AND node with a false left child is
false whatever the right child is, an OR node with a true left child is
true whatever the right child is (even one with an unresolved or
invalid column); otherwise the node evaluates to the right child. -/
theorem C4_short_circuit :
    (∀ row, evaluate_where_filter row none = true) ∧
    (∀ row l r, eval_ast row l = false →
      eval_ast row (.logic .LOGIC_AND l r) = false) ∧
    (∀ row l r, eval_ast row l = true →
      eval_ast row (.logic .LOGIC_OR l r) = true) ∧
    (∀ row l r, eval_ast row l = true →
      eval_ast row (.logic .LOGIC_AND l r) = eval_ast row r) ∧
    (∀ row l r, eval_ast row l = false →
      eval_ast row (.logic .LOGIC_OR l r) = eval_ast row r) := by
  refine ⟨fun row => rfl, fun row l r h => ?_, fun row l r h => ?_,
          fun row l r h => ?_, fun row l r h => ?_⟩ <;>
    simp [eval_ast, h]

/-- C4 witness: an OR whose left leaf is true on the row is true even
though its right leaf names a column that can never resolve. -/
theorem C4_short_circuit_witness :
    eval_ast (some (mkRow ["1"]))
      (.logic .LOGIC_OR (.cond ⟨"a".data, 0, .OP_EQUALS, "1".data, false⟩)
        (.cond ⟨"nosuch".data, USIZE_MAX, .OP_EQUALS, "9".data, false⟩)) = true :=
  C4_short_circuit.2.2.1 (some (mkRow ["1"]))
    (.cond ⟨"a".data, 0, .OP_EQUALS, "1".data, false⟩)
    (.cond ⟨"nosuch".data, USIZE_MAX, .OP_EQUALS, "9".data, false⟩) (by decide)

/-- C7: a condition whose column index is out of bounds for the row
(including the unresolved sentinel) evaluates to false; resolution
leaves the sentinel in place when the column name is not in the header,
so such a condition always evaluates to false after resolution. -/
theorem C7_out_of_bounds_is_false :
    (∀ clause row, row.length ≤ clause.column_idx →
      evaluate_where_clause (some row) clause = false) ∧
    (∀ header clause, clause.column_idx = USIZE_MAX →
      find_column_by_name header clause.column_name = none →
      resolve_ast header (.cond clause) = .cond clause) ∧
    (∀ header clause row, clause.column_idx = USIZE_MAX →
      find_column_by_name header clause.column_name = none →
      row.length ≤ USIZE_MAX →
      eval_ast (some row) (resolve_ast header (.cond clause)) = false) := by
  refine ⟨fun clause row h => ?_, fun header clause h1 h2 => ?_,
          fun header clause row h1 h2 h3 => ?_⟩
  · simp [evaluate_where_clause, h]
  · simp [resolve_ast, h1, h2]
  · have hr : resolve_ast header (.cond clause) = .cond clause := by
      simp [resolve_ast, h1, h2]
    rw [hr]
    show evaluate_where_clause (some row) clause = false
    simp [evaluate_where_clause, h1, h3]

/-- C7 witness: a condition on column "zz", absent from header ["a"],
stays at the sentinel index and evaluates to false on the row ["1"]. -/
theorem C7_out_of_bounds_is_false_witness :
    eval_ast (some (mkRow ["1"]))
      (resolve_ast (mkRow ["a"])
        (.cond ⟨"zz".data, USIZE_MAX, .OP_EQUALS, "1".data, false⟩)) = false :=
  C7_out_of_bounds_is_false.2.2 (mkRow ["a"])
    ⟨"zz".data, USIZE_MAX, .OP_EQUALS, "1".data, false⟩ (mkRow ["1"])
    rfl (by decide) (by decide)

/-- C8: malformed query strings — unmatched or mismatched parentheses,
AND/OR with a missing right operand, a condition with no recognized
operator, an empty column name, trailing unconsumed characters — make
parse_where_clause fail with no root, and a rootless filter passes
every row. -/
theorem C8_parse_failures :
    parse_where_clause "(a=1".data = none ∧
    parse_where_clause "a=1)".data = none ∧
    parse_where_clause "a=1 AND ".data = none ∧
    parse_where_clause "a=1 OR ".data = none ∧
    parse_where_clause "xyz".data = none ∧
    parse_where_clause "= 5".data = none ∧
    parse_where_clause "(a=1) b=2".data = none ∧
    (∀ row, evaluate_where_filter row none = true) :=
  ⟨by decide, by decide, by decide, by decide, by decide, by decide, by decide,
   fun row => rfl⟩

/-- C9 counterexample: the claim says an empty operand value such as
"age > " is a parse error, but parse_where_clause accepts it and
produces a usable filter whose condition has the empty string as
operand. -/
theorem C9_counterexample :
    parse_where_clause "age > ".data =
      some (.cond ⟨"age".data, USIZE_MAX, .OP_GREATER, [], true⟩) := by
  decide

/-- C9 amended: a condition with an empty operand value parses
successfully, with the empty string stored as the operand; of the two
sides only an empty column name is a parse error (every successfully
parsed condition has a nonempty column name, and a query whose column
side is empty fails). -/
theorem C9_amended_empty_value_accepted :
    parse_where_clause "age > ".data =
      some (.cond ⟨"age".data, USIZE_MAX, .OP_GREATER, [], true⟩) ∧
    (∀ s wc, parse_single_condition s = some wc → wc.column_name ≠ []) ∧
    parse_where_clause " > 5".data = none := by
  refine ⟨by decide, fun s wc h => ?_, by decide⟩
  obtain ⟨pos, len, _, _, _, _, hne⟩ := parse_single_condition_split s wc h
  exact hne

/-- C9 amended witness: instantiated at the condition string "a=1". -/
theorem C9_amended_empty_value_accepted_witness :
    (⟨"a".data, USIZE_MAX, .OP_EQUALS, "1".data, false⟩ : WhereClause).column_name ≠ [] :=
  C9_amended_empty_value_accepted.2.1 "a=1".data
    ⟨"a".data, USIZE_MAX, .OP_EQUALS, "1".data, false⟩ (by decide)

/-- C10: evaluating any condition against an absent (NULL) row returns
true, any AST and any non-empty filter therefore also return true on a
NULL row — in contrast with the degrade-to-false rule for an
out-of-range column on a present row (last conjunct: the same sentinel
condition is false on the empty present row). -/
theorem C10_null_row_passes :
    (∀ clause, evaluate_where_clause none clause = true) ∧
    (∀ node, eval_ast none node = true) ∧
    (∀ root, evaluate_where_filter none (some root) = true) ∧
    evaluate_where_clause (some [])
      ⟨"a".data, USIZE_MAX, .OP_EQUALS, "1".data, false⟩ = false := by
  have hnode : ∀ node, eval_ast none node = true := by
    intro node
    induction node with
    | cond clause => rfl
    | logic op l r ihl ihr => cases op <;> simp [eval_ast, ihl, ihr]
  exact ⟨fun clause => rfl, hnode, fun root => hnode root, by decide⟩

/-- C1 counterexample: the claim (and the spec) put `contains` before
the two-character operators, but the code's table tries ">=" first, so
on "a contains b>=c" the code splits at ">=" while the spec's priority
splits at "contains". -/
theorem C1_counterexample :
    parse_single_condition "a contains b>=c".data =
      some ⟨"a contains b".data, USIZE_MAX, .OP_GREATER_EQ, "c".data, true⟩ ∧
    spec_parse_single_condition "a contains b>=c".data =
      some ⟨"a".data, USIZE_MAX, .OP_CONTAINS, "b>=c".data, false⟩ :=
  ⟨by decide, by decide⟩

/-- C1 amended: the operators are tried one at a time, each over the
whole trimmed condition string, in the fixed order
">=", "<=", "!=", "contains", ">", "<", "=" (case-insensitive substring
search); the first operator in this order that occurs anywhere wins and
the condition splits at its leftmost occurrence, both sides trimmed of
surrounding whitespace. -/
theorem C1_amended_operator_priority :
    (∀ s op pos len, find_operator s = some (op, pos, len) →
      ∃ i opstr, operators_table.get? i = some (opstr, op) ∧ len = opstr.length ∧
        startsWithCI opstr (s.drop pos) = true ∧
        (∀ q, q < pos → startsWithCI opstr (s.drop q) = false) ∧
        (∀ j e, j < i → operators_table.get? j = some e → strcasestr s e.1 = none)) ∧
    (∀ s wc, parse_single_condition s = some wc →
      ∃ pos len, find_operator (trim_string s) = some (wc.op, pos, len) ∧
        wc.column_name = trim_string ((trim_string s).take pos) ∧
        wc.value = trim_string ((trim_string s).drop (pos + len))) := by
  constructor
  · intro s op pos len h
    obtain ⟨i, opstr, h1, h2, h3, h4⟩ := find_op_in_spec s operators_table op pos len h
    obtain ⟨hocc, hleft⟩ := strcasestr_spec s opstr pos h3
    exact ⟨i, opstr, h1, h2, hocc, hleft, h4⟩
  · intro s wc h
    obtain ⟨pos, len, hf, hcol, hval, _, _⟩ := parse_single_condition_split s wc h
    exact ⟨pos, len, hf, hcol, hval⟩

/-- C1 amended witness: instantiated at the condition string "a>=b". -/
theorem C1_amended_operator_priority_witness :
    ∃ pos len,
      find_operator (trim_string "a>=b".data) = some (.OP_GREATER_EQ, pos, len) ∧
      ("a".data : List Char) = trim_string ((trim_string "a>=b".data).take pos) ∧
      ("b".data : List Char) = trim_string ((trim_string "a>=b".data).drop (pos + len)) :=
  C1_amended_operator_priority.2 "a>=b".data
    ⟨"a".data, USIZE_MAX, .OP_GREATER_EQ, "b".data, true⟩ (by decide)

/-- C2: a condition string containing ">=" always parses with operator
">=" (never as ">" plus a stray "="); "<="/"!=" likewise win whenever
no earlier table entry occurs; in particular "age>=25" parses to
column "age", operator ">=", value "25". -/
theorem C2_two_char_operators :
    (∀ s wc, (strcasestr (trim_string s) ">=".data).isSome = true →
      parse_single_condition s = some wc → wc.op = .OP_GREATER_EQ) ∧
    (∀ s wc, (strcasestr (trim_string s) "<=".data).isSome = true →
      strcasestr (trim_string s) ">=".data = none →
      parse_single_condition s = some wc → wc.op = .OP_LESS_EQ) ∧
    (∀ s wc, (strcasestr (trim_string s) "!=".data).isSome = true →
      strcasestr (trim_string s) ">=".data = none →
      strcasestr (trim_string s) "<=".data = none →
      parse_single_condition s = some wc → wc.op = .OP_NOT_EQUALS) ∧
    parse_single_condition "age>=25".data =
      some ⟨"age".data, USIZE_MAX, .OP_GREATER_EQ, "25".data, true⟩ := by
  refine ⟨fun s wc hocc hp => ?_, fun s wc hocc hge hp => ?_,
          fun s wc hocc hge hle hp => ?_, by decide⟩
  · obtain ⟨p, hp2⟩ := Option.isSome_iff_exists.mp hocc
    obtain ⟨pos, len, hf, -, -, -, -⟩ := parse_single_condition_split s wc hp
    have hfind : find_operator (trim_string s) = some (.OP_GREATER_EQ, p, 2) := by
      simp [find_operator, operators_table, find_op_in, hp2]
    rw [hfind] at hf
    exact (congrArg Prod.fst (Option.some.inj hf)).symm
  · obtain ⟨p, hp2⟩ := Option.isSome_iff_exists.mp hocc
    obtain ⟨pos, len, hf, -, -, -, -⟩ := parse_single_condition_split s wc hp
    have hfind : find_operator (trim_string s) = some (.OP_LESS_EQ, p, 2) := by
      simp [find_operator, operators_table, find_op_in, hp2, hge]
    rw [hfind] at hf
    exact (congrArg Prod.fst (Option.some.inj hf)).symm
  · obtain ⟨p, hp2⟩ := Option.isSome_iff_exists.mp hocc
    obtain ⟨pos, len, hf, -, -, -, -⟩ := parse_single_condition_split s wc hp
    have hfind : find_operator (trim_string s) = some (.OP_NOT_EQUALS, p, 2) := by
      simp [find_operator, operators_table, find_op_in, hp2, hge, hle]
    rw [hfind] at hf
    exact (congrArg Prod.fst (Option.some.inj hf)).symm

/-- C2 witness: instantiated at the condition string "age>=25". -/
theorem C2_two_char_operators_witness :
    (⟨"age".data, USIZE_MAX, .OP_GREATER_EQ, "25".data, true⟩ : WhereClause).op =
      .OP_GREATER_EQ :=
  C2_two_char_operators.1 "age>=25".data
    ⟨"age".data, USIZE_MAX, .OP_GREATER_EQ, "25".data, true⟩ (by decide) (by decide)

/-- C5 counterexample: the claim says trailing whitespace is ignored
when deciding whether a side parses as a complete number, but the code
requires strtod to consume the whole string, so the field "25 " (with a
trailing space) makes "age > 20" false where the claim's reading gives
25 > 20, i.e. true. -/
theorem C5_counterexample :
    evaluate_where_clause (some (mkRow ["25 "]))
      ⟨"age".data, 0, .OP_GREATER, "20".data, true⟩ = false ∧
    spec_rel_eval "25 ".data "20".data .OP_GREATER = true :=
  ⟨by decide, by decide⟩

/-- C5 amended: for a relational operator both sides go through strtod;
the condition is false unless each strtod call consumed its entire
string (leading whitespace is skipped by strtod itself, but trailing
characters — whitespace included — make the parse incomplete; the empty
string is consumed completely and parses as 0); when both sides are
complete, the result is the numeric comparison of the two parsed values
(modelled as exact rationals with IEEE inf/nan ordering; double
rounding is not modelled). -/
theorem C5_amended_relational :
    ∀ clause row,
      (clause.op = .OP_GREATER ∨ clause.op = .OP_LESS ∨
       clause.op = .OP_GREATER_EQ ∨ clause.op = .OP_LESS_EQ) →
      clause.column_idx < row.length →
      evaluate_where_clause (some row) clause =
        (if (strtodQ ((row.getD clause.column_idx none).getD [])).2 = [] ∧
            (strtodQ clause.value).2 = [] then
          match clause.op with
          | .OP_GREATER =>
              dLT (strtodQ clause.value).1
                (strtodQ ((row.getD clause.column_idx none).getD [])).1
          | .OP_LESS =>
              dLT (strtodQ ((row.getD clause.column_idx none).getD [])).1
                (strtodQ clause.value).1
          | .OP_GREATER_EQ =>
              dLE (strtodQ clause.value).1
                (strtodQ ((row.getD clause.column_idx none).getD [])).1
          | .OP_LESS_EQ =>
              dLE (strtodQ ((row.getD clause.column_idx none).getD [])).1
                (strtodQ clause.value).1
          | _ => false
         else false) := by
  intro clause row hop hlt
  have hnle : ¬(row.length ≤ clause.column_idx) := not_le.mpr hlt
  by_cases h1 : (strtodQ ((row.getD clause.column_idx none).getD [])).2 = [] <;>
    by_cases h2 : (strtodQ clause.value).2 = [] <;>
      rcases hop with h | h | h | h <;>
        simp [evaluate_where_clause, hnle, h, h1, h2]

/-- C5 amended witness: instantiated at "age > 20" on the row ["25"]. -/
theorem C5_amended_relational_witness :
    evaluate_where_clause (some (mkRow ["25"]))
      ⟨"age".data, 0, .OP_GREATER, "20".data, true⟩ =
      (if (strtodQ (((mkRow ["25"]).getD 0 none).getD [])).2 = [] ∧
          (strtodQ "20".data).2 = [] then
        dLT (strtodQ "20".data).1 (strtodQ (((mkRow ["25"]).getD 0 none).getD [])).1
       else false) :=
  C5_amended_relational ⟨"age".data, 0, .OP_GREATER, "20".data, true⟩ (mkRow ["25"])
    (Or.inl rfl) (by decide)

/-- C6 counterexample: the claim says the field value is trimmed of
surrounding whitespace before the case-insensitive equality, but the
code compares the raw field: on field " x" the condition a = x is
false where the claim's reading gives true. -/
theorem C6_counterexample :
    evaluate_where_clause (some (mkRow [" x"]))
      ⟨"a".data, 0, .OP_EQUALS, "x".data, false⟩ = false ∧
    spec_equals_eval " x".data "x".data = true :=
  ⟨by decide, by decide⟩

/-- C6 amended: equals/not_equals compare the raw field text (no
trimming at evaluation time; the operand was trimmed once at parse
time) by case-insensitive full-string equality, not_equals being the
negation. -/
theorem C6_amended_equality_no_trim :
    ∀ clause row, clause.column_idx < row.length →
      (clause.op = .OP_EQUALS →
        evaluate_where_clause (some row) clause =
          strcaseeq ((row.getD clause.column_idx none).getD []) clause.value) ∧
      (clause.op = .OP_NOT_EQUALS →
        evaluate_where_clause (some row) clause =
          !strcaseeq ((row.getD clause.column_idx none).getD []) clause.value) := by
  intro clause row hlt
  have hnle : ¬(row.length ≤ clause.column_idx) := not_le.mpr hlt
  constructor <;> intro h <;> simp [evaluate_where_clause, hnle, h]

/-- C6 amended witness: instantiated at "a = x" on the row [" x"]. -/
theorem C6_amended_equality_no_trim_witness :
    evaluate_where_clause (some (mkRow [" x"]))
      ⟨"a".data, 0, .OP_EQUALS, "x".data, false⟩ =
      strcaseeq " x".data "x".data :=
  (C6_amended_equality_no_trim ⟨"a".data, 0, .OP_EQUALS, "x".data, false⟩
    (mkRow [" x"]) (by decide)).1 rfl

end Csvq
